import Mathlib

/-!
Verification development for the stalwart-webadmin configuration engine
(`src/pages/config/mod.rs`): the form-to-store update planner
(`FormData::build_update`) and the store reader (`SettingsValues::array_values`
and `SettingsValues::format`).

The supporting types from `crate::core` (`FormData`, `FormValue`, the schema
descriptor types and their small accessors) are not part of the two source
files; they are modelled from the specification where noted.  Everything in
`mod.rs` itself is translated directly from the Rust source.
-/

/-- Models Rust `str::starts_with`: codepoint-sequence prefix test (for valid
UTF-8 the byte-prefix test and the codepoint-prefix test agree). -/
def strStartsWith (s p : String) : Bool :=
  p.data.isPrefixOf s.data

/-- Strict lexicographic order on codepoint sequences.  For valid UTF-8 this
coincides with Rust's byte-wise `Ord` on `str`/`String`. -/
def lexLt : List Char → List Char → Bool
  | [], [] => false
  | [], _ :: _ => true
  | _ :: _, [] => false
  | a :: xs, b :: ys =>
    if a.toNat < b.toNat then true
    else if b.toNat < a.toNat then false
    else lexLt xs ys

/-- Reflexive lexicographic order on codepoint sequences (`lexLt` or equal). -/
def lexLe : List Char → List Char → Bool
  | [], _ => true
  | _ :: _, [] => false
  | a :: xs, b :: ys =>
    if a.toNat < b.toNat then true
    else if b.toNat < a.toNat then false
    else lexLe xs ys

/-- Insert one key-value pair into a list sorted by key (`lexLe` on the key). -/
def insertByKey (x : String × String) : List (String × String) → List (String × String)
  | [] => [x]
  | y :: ys => if lexLe x.1.data y.1.data then x :: y :: ys else y :: insertByKey x ys

/-- Stable sort of key-value pairs by key.  Models the
`results.sort_by(|(l_key, _), (r_key, _)| l_key.cmp(r_key))` call in
`array_values`: any stable sort by the total order on keys produces this
result. -/
def sortByKey : List (String × String) → List (String × String)
  | [] => []
  | x :: xs => insertByKey x (sortByKey xs)

/-- The flat key-value store (`pub type Settings = AHashMap<String, String>`),
modelled as an association list of its entries; entry order is irrelevant to
the reader because `array_values` sorts and `Settings.get` assumes unique
keys. -/
abbrev Settings := List (String × String)

/-- Models `AHashMap::get` on the association-list representation. -/
def Settings.get (s : Settings) (key : String) : Option String :=
  List.lookup key s

/-- Translation of `SettingsValues::array_values` from `mod.rs`: keep every
entry whose key starts with `key ++ "."` or equals `key`, then sort by key. -/
def array_values (s : Settings) (key : String) : List (String × String) :=
  sortByKey (s.filter (fun kv => strStartsWith kv.1 (key ++ ".") || kv.1 == key))

/-- Modelled from the spec (the `core::form` value model is not among the
source files): one `(condition, result)` pair of a conditional expression. -/
structure IfThen where
  if_ : String
  then_ : String
deriving DecidableEq, Repr

/-- Modelled from the spec: a conditional expression value, an ordered
sequence of if/then pairs plus a mandatory fallback. -/
structure ExpressionValue where
  if_thens : List IfThen
  else_ : String
deriving DecidableEq, Repr

/-- Modelled from the spec: an expression is absent iff both the pair list and
the fallback are empty. -/
def ExpressionValue.is_empty (e : ExpressionValue) : Bool :=
  e.if_thens.isEmpty && e.else_.isEmpty

/-- Modelled from the spec (the `core::form::FormValue` type is not among the
source files): a field's edited value is a scalar, an array, or an
expression. -/
inductive FormValue
  | Value (value : String)
  | Array (values : List String)
  | Expression (expr : ExpressionValue)
deriving DecidableEq, Repr

/-- Modelled from the spec: an edited value is absent iff the scalar string is
empty, the array is empty, or the expression is empty. -/
def FormValue.is_empty : FormValue → Bool
  | .Value v => v.isEmpty
  | .Array vs => vs.isEmpty
  | .Expression e => e.is_empty

/-- Modelled from the spec: the source of a select field, a static key/label
list or a dynamic schema reference (whose details the reader never inspects). -/
inductive Source
  | Static (items : List (String × String))
  | Dynamic (schema : String) (field : String)
deriving DecidableEq, Repr

/-- Modelled from the spec: the closed set of field types (`core::schema::Type`
is not among the source files).  `Select` carries its source and multi flag;
the remaining tags carry no data the planner or reader inspects. -/
inductive FieldType
  | Input
  | Secret
  | Rate
  | Duration
  | Expression
  | Select (source : Source) (multi : Bool)
  | Array
deriving DecidableEq, Repr

/-- Modelled from the spec: a schema field with its identifier, declared type
and multivalue flag. -/
structure SchemaField where
  id : String
  typ_ : FieldType
  multivalue : Bool
deriving DecidableEq, Repr

/-- Modelled from the spec: the multivalue flag accessor used by
`build_update`'s List branch. -/
def SchemaField.is_multivalue (f : SchemaField) : Bool :=
  f.multivalue

/-- The schema storage shape.  `Record` carries its storage prefix (the other
`Record` fields elided by `SchemaType::Record { prefix, .. }` in `mod.rs` are
never inspected by the planner and are omitted). -/
inductive SchemaType
  | Record (pfx : String)
  | Entry (pfx : String)
  | List
deriving DecidableEq, Repr

/-- Modelled from the spec: a schema, its shape plus its declared fields
(`schema.fields.values()` iterates the declared fields in order). -/
structure Schema where
  typ : SchemaType
  fields : List SchemaField
deriving DecidableEq, Repr

/-- Modelled from the spec: the edited form data handed to the planner — the
per-field edited values (an association list standing for the map, iterated in
its given order), the schema, and the update/create flag. -/
structure FormData where
  values : List (String × FormValue)
  schema : Schema
  is_update : Bool
deriving DecidableEq, Repr

/-- Modelled from the spec: `FormData::value_as_str`, the scalar string stored
under a control key such as `_id`, when present. -/
def FormData.value_as_str (d : FormData) (id : String) : Option String :=
  match d.values.lookup id with
  | some (FormValue.Value s) => some s
  | _ => none

/-- Modelled from the spec: `FormData::value_is_empty` — a field's edited value
is absent when missing from the map or empty per `FormValue.is_empty`. -/
def FormData.value_is_empty (d : FormData) (id : String) : Bool :=
  match d.values.lookup id with
  | some v => v.is_empty
  | none => true

/-- Translation of the `UpdateSettings` enum from `mod.rs`. -/
inductive UpdateSettings
  | Delete (keys : List String)
  | Clear (pfx : String)
  | Insert (pfx : Option String) (values : List (String × String)) (assert_empty : Bool)
deriving DecidableEq, Repr

/-- Decimal digits of `n`, most significant first, by fuel-based recursion
(`fuel ≥ n` suffices).  Models the digit loop of Rust's integer `Display`. -/
def natToDecAux : Nat → Nat → List Char
  | 0, _ => []
  | _, 0 => []
  | fuel + 1, n => natToDecAux fuel (n / 10) ++ [Char.ofNat (48 + n % 10)]

/-- Models Rust's `usize::to_string`: the decimal representation, `"0"` for
zero. -/
def natToDec (n : Nat) : String :=
  if n = 0 then "0" else String.mk (natToDecAux n n)

/-- Models the Rust format specifier `{x:0>w$}`: left-pad with `'0'` to width
`w` (no truncation when already at least that wide). -/
def zeroPad (w : Nat) (s : String) : String :=
  String.mk (List.replicate (w - s.length) '0') ++ s

/-- The body of the `for (key, value) in &self.values` loop of `build_update`
for one non-control field: the key-value pairs emitted for its edited value. -/
def flatten_field (key : String) : FormValue → List (String × String)
  | FormValue.Value v => if !v.isEmpty then [(key, v)] else []
  | FormValue.Array values =>
    if !values.isEmpty then
      let total_values := values.length
      if total_values > 1 then
        let pad_len := (natToDec (total_values - 1)).length
        values.enum.map (fun iv => (key ++ "." ++ zeroPad pad_len (natToDec iv.1), iv.2))
      else
        [(key, values.headD "")]
    else []
  | FormValue.Expression expr =>
    if !expr.is_empty then
      if !expr.if_thens.isEmpty then
        let total_values := expr.if_thens.length
        let pad_len := (natToDec total_values).length
        (expr.if_thens.enum.flatMap (fun ii =>
          [(key ++ "." ++ zeroPad pad_len (natToDec ii.1) ++ ".if", ii.2.if_),
           (key ++ "." ++ zeroPad pad_len (natToDec ii.1) ++ ".then", ii.2.then_)]))
        ++ [(key ++ "." ++ zeroPad pad_len (natToDec total_values) ++ ".else", expr.else_)]
      else
        [(key, expr.else_)]
    else []

/-- The full `key_values` accumulation loop of `build_update`: control fields
(key starting with `'_'`) are skipped, every other field is flattened in
order. -/
def collect_key_values (vals : List (String × FormValue)) : List (String × String) :=
  vals.flatMap (fun kv => if strStartsWith kv.1 "_" then [] else flatten_field kv.1 kv.2)

/-- Translation of `FormData::build_update` from `mod.rs`.  The two
`value_as_str("_id").unwrap()` calls of the Rust source are partial; `none`
models the panic on a missing `_id` control value, every other path is the
Rust code verbatim. -/
def FormData.build_update (d : FormData) : Option (List UpdateSettings) :=
  match d.schema.typ with
  | SchemaType.Record pfx =>
    match d.value_as_str "_id" with
    | none => none
    | some id =>
      let pre := if d.is_update then [UpdateSettings.Clear (pfx ++ "." ++ id ++ ".")] else []
      let key_values := collect_key_values d.values
      some (pre ++
        (if !key_values.isEmpty then
          [UpdateSettings.Insert (some (pfx ++ "." ++ id)) key_values (!d.is_update)]
        else []))
  | SchemaType.Entry pfx =>
    match d.value_as_str "_id" with
    | none => none
    | some id =>
      some [UpdateSettings.Insert none
        [(pfx ++ "." ++ id, (d.value_as_str "_value").getD "")] (!d.is_update)]
  | SchemaType.List =>
    let pre :=
      if d.is_update then
        let clears := (d.schema.fields.filter (fun f => f.is_multivalue)).map
          (fun f => UpdateSettings.Clear (f.id ++ "."))
        let delete_keys := (d.schema.fields.filter
          (fun f => f.is_multivalue || d.value_is_empty f.id)).map (fun f => f.id)
        clears ++ (if !delete_keys.isEmpty then [UpdateSettings.Delete delete_keys] else [])
      else []
    let key_values := collect_key_values d.values
    some (pre ++
      (if !key_values.isEmpty then [UpdateSettings.Insert none key_values false] else []))

/-- Translation of `SettingsValues::format` from `mod.rs`. -/
def Settings.format (s : Settings) (field : SchemaField) : String :=
  match field.typ_ with
  | FieldType.Select (Source.Static items) false =>
    let value := (Settings.get s field.id).getD ""
    ((items.find? (fun kv => kv.1 == value)).map (fun kv => kv.2)).getD value
  | FieldType.Array =>
    ((array_values s field.id).head?.map (fun kv => kv.2)).getD ""
  | _ => (Settings.get s field.id).getD ""

/-- The character of one decimal digit (`'0'` + d). -/
def decDigitChar (d : Nat) : Char :=
  Char.ofNat (48 + d)

/-- Whether an operation is an `Insert`. -/
def UpdateSettings.isInsert : UpdateSettings → Bool
  | .Insert _ _ _ => true
  | _ => false

/-- Whether an operation is a `Clear`. -/
def UpdateSettings.isClear : UpdateSettings → Bool
  | .Clear _ => true
  | _ => false

/-- Whether an operation is a `Delete`. -/
def UpdateSettings.isDelete : UpdateSettings → Bool
  | .Delete _ => true
  | _ => false

/-! ## Theorems -/

/-- Unfolding equation of `build_update` on a Record-shape schema with the
`_id` control value present. -/
theorem build_update_record_eq (d : FormData) (pfx id : String)
    (hS : d.schema.typ = SchemaType.Record pfx) (hid : d.value_as_str "_id" = some id) :
    d.build_update = some
      ((if d.is_update then [UpdateSettings.Clear (pfx ++ "." ++ id ++ ".")] else []) ++
        (if !(collect_key_values d.values).isEmpty then
          [UpdateSettings.Insert (some (pfx ++ "." ++ id)) (collect_key_values d.values)
            (!d.is_update)]
        else [])) := by
  unfold FormData.build_update
  rw [hS, hid]

/-- Unfolding equation of `build_update` on an Entry-shape schema with the
`_id` control value present. -/
theorem build_update_entry_eq (d : FormData) (pfx id : String)
    (hS : d.schema.typ = SchemaType.Entry pfx) (hid : d.value_as_str "_id" = some id) :
    d.build_update = some [UpdateSettings.Insert none
      [(pfx ++ "." ++ id, (d.value_as_str "_value").getD "")] (!d.is_update)] := by
  unfold FormData.build_update
  rw [hS, hid]

/-- Unfolding equation of `build_update` on a List-shape schema. -/
theorem build_update_list_eq (d : FormData) (hS : d.schema.typ = SchemaType.List) :
    d.build_update = some
      ((if d.is_update then
          ((d.schema.fields.filter (fun f => f.is_multivalue)).map
            (fun f => UpdateSettings.Clear (f.id ++ "."))) ++
          (if !((d.schema.fields.filter
                  (fun f => f.is_multivalue || d.value_is_empty f.id)).map
                (fun f => f.id)).isEmpty then
            [UpdateSettings.Delete ((d.schema.fields.filter
              (fun f => f.is_multivalue || d.value_is_empty f.id)).map (fun f => f.id))]
          else [])
        else []) ++
        (if !(collect_key_values d.values).isEmpty then
          [UpdateSettings.Insert none (collect_key_values d.values) false]
        else [])) := by
  unfold FormData.build_update
  rw [hS]

/-- An absent edited value is flattened to no key-value pairs at all. -/
theorem flatten_field_of_is_empty (k : String) {v : FormValue} (h : v.is_empty = true) :
    flatten_field k v = [] := by
  cases v with
  | Value s =>
    simp only [FormValue.is_empty] at h
    simp [flatten_field, h]
  | Array vs =>
    simp only [FormValue.is_empty] at h
    simp [flatten_field, h]
  | Expression e =>
    simp only [FormValue.is_empty] at h
    simp [flatten_field, h]

/-- `collect_key_values` on a cons. -/
theorem collect_key_values_cons (kv : String × FormValue) (rest : List (String × FormValue)) :
    collect_key_values (kv :: rest) =
      (if strStartsWith kv.1 "_" then [] else flatten_field kv.1 kv.2) ++
        collect_key_values rest := by
  simp [collect_key_values]

/-- When every non-control field is absent, no key-value pair is collected. -/
theorem collect_key_values_eq_nil (vals : List (String × FormValue))
    (h : ∀ kv ∈ vals, strStartsWith kv.1 "_" = false → kv.2.is_empty = true) :
    collect_key_values vals = [] := by
  induction vals with
  | nil => rfl
  | cons kv rest ih =>
    rw [collect_key_values_cons, ih (fun p hp => h p (List.mem_cons_of_mem kv hp))]
    by_cases hc : strStartsWith kv.1 "_"
    · simp [hc]
    · simp only [hc, if_false, List.append_nil]
      exact flatten_field_of_is_empty kv.1 (h kv (List.mem_cons_self kv rest) (by simpa using hc))

/-- Claim C4: for every Record-shape schema with `is_update = true` and the
`_id` control value present, the operation list returned by `build_update`
begins with exactly one `Clear`, its prefix is `{prefix}.{id}.` (schema prefix,
identifier, trailing dot), and no other `Clear` appears in the plan. -/
theorem record_update_clear_head (d : FormData) (pfx id : String)
    (ops : List UpdateSettings)
    (hS : d.schema.typ = SchemaType.Record pfx) (hU : d.is_update = true)
    (hid : d.value_as_str "_id" = some id) (hB : d.build_update = some ops) :
    ops.head? = some (UpdateSettings.Clear (pfx ++ "." ++ id ++ ".")) ∧
      ops.countP (fun op => match op with
        | UpdateSettings.Clear _ => true
        | _ => false) = 1 := by
  rw [build_update_record_eq d pfx id hS hid, hU] at hB
  injection hB with hB
  subst hB
  cases hkv : (collect_key_values d.values).isEmpty <;>
    simp [hkv, List.countP_cons, List.countP_nil]

/-- Concrete instance of `record_update_clear_head`. -/
theorem record_update_clear_head_witness :
    (FormData.mk [("_id", FormValue.Value "x"), ("a", FormValue.Value "v")]
        (Schema.mk (SchemaType.Record "p") []) true).build_update
      = some [UpdateSettings.Clear "p.x.",
          UpdateSettings.Insert (some "p.x") [("a", "v")] false] ∧
    ([UpdateSettings.Clear "p.x.",
        UpdateSettings.Insert (some "p.x") [("a", "v")] false].head?
      = some (UpdateSettings.Clear ("p" ++ "." ++ "x" ++ ".")) ∧
      [UpdateSettings.Clear "p.x.",
        UpdateSettings.Insert (some "p.x") [("a", "v")] false].countP (fun op => match op with
        | UpdateSettings.Clear _ => true
        | _ => false) = 1) :=
  ⟨by decide,
    record_update_clear_head
      (FormData.mk [("_id", FormValue.Value "x"), ("a", FormValue.Value "v")]
        (Schema.mk (SchemaType.Record "p") []) true) "p" "x" _ rfl rfl (by decide) (by decide)⟩

/-- Claim C10: for a Record-shape update with the `_id` present whose
non-control edited values are all absent, the plan is exactly the one `Clear`
of the record's subtree and nothing else. -/
theorem record_update_all_empty_clears_only (d : FormData) (pfx id : String)
    (hS : d.schema.typ = SchemaType.Record pfx) (hU : d.is_update = true)
    (hid : d.value_as_str "_id" = some id)
    (hempty : ∀ kv ∈ d.values, strStartsWith kv.1 "_" = false → kv.2.is_empty = true) :
    d.build_update = some [UpdateSettings.Clear (pfx ++ "." ++ id ++ ".")] := by
  rw [build_update_record_eq d pfx id hS hid, hU, collect_key_values_eq_nil d.values hempty]
  simp

/-- Concrete instance of `record_update_all_empty_clears_only`. -/
theorem record_update_all_empty_clears_only_witness :
    (FormData.mk [("_id", FormValue.Value "x"), ("a", FormValue.Value ""),
        ("b", FormValue.Array []), ("c", FormValue.Expression (ExpressionValue.mk [] ""))]
        (Schema.mk (SchemaType.Record "p") []) true).build_update
      = some [UpdateSettings.Clear ("p" ++ "." ++ "x" ++ ".")] :=
  record_update_all_empty_clears_only
    (FormData.mk [("_id", FormValue.Value "x"), ("a", FormValue.Value ""),
        ("b", FormValue.Array []), ("c", FormValue.Expression (ExpressionValue.mk [] ""))]
        (Schema.mk (SchemaType.Record "p") []) true) "p" "x" rfl rfl (by decide) (by decide)

/-- Claim C9: under the precondition that the `_id` control value is present
for Record and Entry shapes, `build_update` always returns a plan (the `none`
result modelling a Rust panic is unreachable); being a Lean function it is by
construction a pure function of its inputs. -/
theorem build_update_total (d : FormData)
    (h : ∀ pfx, d.schema.typ = SchemaType.Record pfx ∨ d.schema.typ = SchemaType.Entry pfx →
      (d.value_as_str "_id").isSome) :
    (d.build_update).isSome := by
  unfold FormData.build_update
  cases hS : d.schema.typ with
  | Record pfx =>
    have hid := h pfx (Or.inl hS)
    cases hv : d.value_as_str "_id" with
    | none => rw [hv] at hid; simp at hid
    | some id => simp
  | Entry pfx =>
    have hid := h pfx (Or.inr hS)
    cases hv : d.value_as_str "_id" with
    | none => rw [hv] at hid; simp at hid
    | some id => simp
  | List => simp

/-- Concrete instance of `build_update_total`. -/
theorem build_update_total_witness :
    ((FormData.mk [("a", FormValue.Value "v")]
        (Schema.mk SchemaType.List []) false).build_update).isSome :=
  build_update_total
    (FormData.mk [("a", FormValue.Value "v")] (Schema.mk SchemaType.List []) false)
    (fun _ hp => by cases hp <;> simp_all)

/-- Claim C6: in every Record- or Entry-shape plan, each emitted `Insert` has
`assert_empty = true` exactly on create (`is_update = false`) and
`assert_empty = false` on update. -/
theorem record_entry_assert_empty (d : FormData) (pfx : String) (ops : List UpdateSettings)
    (hS : d.schema.typ = SchemaType.Record pfx ∨ d.schema.typ = SchemaType.Entry pfx)
    (hB : d.build_update = some ops) :
    ∀ p kvs ae, UpdateSettings.Insert p kvs ae ∈ ops → ae = !d.is_update := by
  intro p kvs ae hmem
  rcases hS with hS | hS
  · cases hv : d.value_as_str "_id" with
    | none =>
      unfold FormData.build_update at hB
      rw [hS, hv] at hB
      exact absurd hB (by simp)
    | some id =>
      rw [build_update_record_eq d pfx id hS hv] at hB
      injection hB with hB
      subst hB
      rcases List.mem_append.mp hmem with hm | hm
      · cases hu : d.is_update <;> rw [hu] at hm <;> simp at hm
      · cases hkv : (collect_key_values d.values).isEmpty <;> rw [hkv] at hm <;>
          simp at hm
        exact hm.2.2
  · cases hv : d.value_as_str "_id" with
    | none =>
      unfold FormData.build_update at hB
      rw [hS, hv] at hB
      exact absurd hB (by simp)
    | some id =>
      rw [build_update_entry_eq d pfx id hS hv] at hB
      injection hB with hB
      subst hB
      simp at hmem
      exact hmem.2.2

/-- Concrete instance of `record_entry_assert_empty`: the Entry create plan's
Insert carries `assert_empty = true`. -/
theorem record_entry_assert_empty_witness :
    true = !(FormData.mk
      [("_id", FormValue.Value "mystore"), ("_value", FormValue.Value "/var/mail")]
      (Schema.mk (SchemaType.Entry "store") []) false).is_update :=
  record_entry_assert_empty
    (FormData.mk [("_id", FormValue.Value "mystore"), ("_value", FormValue.Value "/var/mail")]
      (Schema.mk (SchemaType.Entry "store") []) false)
    "store" [UpdateSettings.Insert none [("store.mystore", "/var/mail")] true]
    (Or.inr rfl) (by decide)
    none [("store.mystore", "/var/mail")] true (by decide)

/-- Claim C7: a field edited to a one-element array is emitted as the single
pair `(field_id, element)` under the bare field id — no dot or index segment
is appended; shown both for the flattening of the field and for the plan of a
one-field List-shape form. -/
theorem single_element_array_bare_key (f e : String) (hf : strStartsWith f "_" = false) :
    flatten_field f (FormValue.Array [e]) = [(f, e)] ∧
      (FormData.mk [(f, FormValue.Array [e])]
          (Schema.mk SchemaType.List []) false).build_update
        = some [UpdateSettings.Insert none [(f, e)] false] := by
  have hflat : flatten_field f (FormValue.Array [e]) = [(f, e)] := by
    simp [flatten_field]
  refine ⟨hflat, ?_⟩
  rw [build_update_list_eq _ rfl]
  rw [show collect_key_values [(f, FormValue.Array [e])] = [(f, e)] by
    rw [collect_key_values_cons, hf]
    simp [collect_key_values, hflat]]
  simp

/-- Concrete instance of `single_element_array_bare_key`. -/
theorem single_element_array_bare_key_witness :
    flatten_field "f" (FormValue.Array ["x"]) = [("f", "x")] ∧
      (FormData.mk [("f", FormValue.Array ["x"])]
          (Schema.mk SchemaType.List []) false).build_update
        = some [UpdateSettings.Insert none [("f", "x")] false] :=
  single_element_array_bare_key "f" "x" (by decide)

/-- Claim C3: flattening an expression with `k ≥ 1` condition pairs emits, in
order, `{field}.{padded i}.if` / `{field}.{padded i}.then` for each pair and
then `{field}.{padded k}.else` for the fallback, where the zero-padding width
is the decimal digit count of `k` itself (`natToDec k`, not `k - 1`); stated
for the plan of a one-field List-shape form. -/
theorem expression_flatten_keys (f fb : String) (pairs : List IfThen)
    (hne : pairs ≠ []) (hf : strStartsWith f "_" = false) :
    (FormData.mk [(f, FormValue.Expression (ExpressionValue.mk pairs fb))]
        (Schema.mk SchemaType.List []) false).build_update
      = some [UpdateSettings.Insert none
          ((pairs.enum.flatMap (fun ii =>
            [(f ++ "." ++ zeroPad (natToDec pairs.length).length (natToDec ii.1) ++ ".if",
                ii.2.if_),
              (f ++ "." ++ zeroPad (natToDec pairs.length).length (natToDec ii.1) ++ ".then",
                ii.2.then_)])) ++
            [(f ++ "." ++ zeroPad (natToDec pairs.length).length (natToDec pairs.length)
                ++ ".else", fb)])
          false] := by
  have hie : pairs.isEmpty = false := by
    cases pairs with
    | nil => exact absurd rfl hne
    | cons a l => rfl
  have hflat : flatten_field f (FormValue.Expression (ExpressionValue.mk pairs fb)) =
      (pairs.enum.flatMap (fun ii =>
        [(f ++ "." ++ zeroPad (natToDec pairs.length).length (natToDec ii.1) ++ ".if",
            ii.2.if_),
          (f ++ "." ++ zeroPad (natToDec pairs.length).length (natToDec ii.1) ++ ".then",
            ii.2.then_)])) ++
        [(f ++ "." ++ zeroPad (natToDec pairs.length).length (natToDec pairs.length)
            ++ ".else", fb)] := by
    simp [flatten_field, ExpressionValue.is_empty, hie]
  rw [build_update_list_eq _ rfl]
  rw [show collect_key_values [(f, FormValue.Expression (ExpressionValue.mk pairs fb))] =
      flatten_field f (FormValue.Expression (ExpressionValue.mk pairs fb)) by
    rw [collect_key_values_cons, hf]
    simp [collect_key_values]]
  rw [hflat]
  simp

/-- Concrete instance of `expression_flatten_keys` at `k = 2`: the emitted keys
are exactly `field.0.if`, `field.0.then`, `field.1.if`, `field.1.then`,
`field.2.else`. -/
theorem expression_flatten_keys_witness :
    (FormData.mk [("field", FormValue.Expression
        (ExpressionValue.mk [IfThen.mk "c0" "r0", IfThen.mk "c1" "r1"] "fb"))]
        (Schema.mk SchemaType.List []) false).build_update
      = some [UpdateSettings.Insert none
          [("field.0.if", "c0"), ("field.0.then", "r0"),
            ("field.1.if", "c1"), ("field.1.then", "r1"),
            ("field.2.else", "fb")] false] := by
  have h := expression_flatten_keys "field" "fb"
    [IfThen.mk "c0" "r0", IfThen.mk "c1" "r1"] (by decide) (by decide)
  rw [h]
  decide

/-- Every collected key-value pair originates from flattening some non-control
field of the form. -/
theorem mem_collect_key_values {pr : String × String} {vals : List (String × FormValue)}
    (h : pr ∈ collect_key_values vals) :
    ∃ kv ∈ vals, strStartsWith kv.1 "_" = false ∧ pr ∈ flatten_field kv.1 kv.2 := by
  induction vals with
  | nil => simp [collect_key_values] at h
  | cons kv rest ih =>
    rw [collect_key_values_cons] at h
    rcases List.mem_append.mp h with hm | hm
    · by_cases hc : strStartsWith kv.1 "_"
      · rw [if_pos hc] at hm
        simp at hm
      · rw [if_neg hc] at hm
        exact ⟨kv, List.mem_cons_self kv rest, by simpa using hc, hm⟩
    · obtain ⟨kv', hkv', hc', hpr'⟩ := ih hm
      exact ⟨kv', List.mem_cons_of_mem kv hkv', hc', hpr'⟩

/-- Claim C2: a field whose edited value is absent contributes no key-value
pair: its flattening is empty, and every pair of every `Insert` in any plan
originates either from the Entry-shape identifier pair or from flattening a
non-control field whose value is present — never from an absent field. -/
theorem absent_field_no_insert_pair (d : FormData) (ops : List UpdateSettings)
    (hB : d.build_update = some ops)
    (k : String) (v : FormValue) (hkv : (k, v) ∈ d.values) (hab : v.is_empty = true) :
    flatten_field k v = [] ∧
      ∀ op ∈ ops, ∀ p kvs ae, op = UpdateSettings.Insert p kvs ae →
        ∀ pr ∈ kvs,
          (∃ pfx id, d.schema.typ = SchemaType.Entry pfx ∧
            d.value_as_str "_id" = some id ∧
            pr = (pfx ++ "." ++ id, (d.value_as_str "_value").getD "")) ∨
          ∃ k' v', (k', v') ∈ d.values ∧ strStartsWith k' "_" = false ∧
            v'.is_empty = false ∧ pr ∈ flatten_field k' v' := by
  refine ⟨flatten_field_of_is_empty k hab, ?_⟩
  have from_collect : ∀ pr ∈ collect_key_values d.values,
      ∃ k' v', (k', v') ∈ d.values ∧ strStartsWith k' "_" = false ∧
        v'.is_empty = false ∧ pr ∈ flatten_field k' v' := by
    intro pr hpr
    obtain ⟨kv', hmem', hc', hfl'⟩ := mem_collect_key_values hpr
    refine ⟨kv'.1, kv'.2, by simpa using hmem', hc', ?_, hfl'⟩
    cases he : kv'.2.is_empty with
    | false => rfl
    | true =>
      rw [flatten_field_of_is_empty kv'.1 he] at hfl'
      simp at hfl'
  intro op hop p kvs ae hope pr hpr
  subst hope
  cases hS : d.schema.typ with
  | Record pfx =>
    cases hv2 : d.value_as_str "_id" with
    | none =>
      unfold FormData.build_update at hB
      rw [hS, hv2] at hB
      exact absurd hB (by simp)
    | some id =>
      rw [build_update_record_eq d pfx id hS hv2] at hB
      injection hB with hB
      subst hB
      rcases List.mem_append.mp hop with hm | hm
      · cases hu : d.is_update <;> rw [hu] at hm <;> simp at hm
      · cases hkve : (collect_key_values d.values).isEmpty <;> rw [hkve] at hm <;>
          simp at hm
        exact Or.inr (from_collect pr (hm.2.1 ▸ hpr))
  | Entry pfx =>
    cases hv2 : d.value_as_str "_id" with
    | none =>
      unfold FormData.build_update at hB
      rw [hS, hv2] at hB
      exact absurd hB (by simp)
    | some id =>
      rw [build_update_entry_eq d pfx id hS hv2] at hB
      injection hB with hB
      subst hB
      simp at hop
      obtain ⟨rfl, rfl, rfl⟩ := hop
      simp at hpr
      exact Or.inl ⟨pfx, id, rfl, rfl, hpr⟩
  | List =>
    rw [build_update_list_eq d hS] at hB
    injection hB with hB
    subst hB
    rcases List.mem_append.mp hop with hm | hm
    · cases hu : d.is_update <;> rw [hu] at hm
      · simp at hm
      · rcases List.mem_append.mp hm with hm2 | hm2
        · simp at hm2
        · cases hdk : ((d.schema.fields.filter
              (fun f => f.is_multivalue || d.value_is_empty f.id)).map
              (fun f => f.id)).isEmpty <;> rw [hdk] at hm2 <;> simp at hm2
    · cases hkve : (collect_key_values d.values).isEmpty <;> rw [hkve] at hm <;>
        simp at hm
      exact Or.inr (from_collect pr (hm.2.1 ▸ hpr))

/-- Concrete instance of `absent_field_no_insert_pair`. -/
theorem absent_field_no_insert_pair_witness :
    flatten_field "gone" (FormValue.Value "") = [] ∧
      ∀ op ∈ [UpdateSettings.Insert none [("kept", "v")] false],
        ∀ p kvs ae, op = UpdateSettings.Insert p kvs ae →
        ∀ pr ∈ kvs,
          (∃ pfx id,
            (FormData.mk [("gone", FormValue.Value ""), ("kept", FormValue.Value "v")]
              (Schema.mk SchemaType.List []) false).schema.typ = SchemaType.Entry pfx ∧
            (FormData.mk [("gone", FormValue.Value ""), ("kept", FormValue.Value "v")]
              (Schema.mk SchemaType.List []) false).value_as_str "_id" = some id ∧
            pr = (pfx ++ "." ++ id,
              ((FormData.mk [("gone", FormValue.Value ""), ("kept", FormValue.Value "v")]
                (Schema.mk SchemaType.List []) false).value_as_str "_value").getD "")) ∨
          ∃ k' v',
            (k', v') ∈ (FormData.mk
              [("gone", FormValue.Value ""), ("kept", FormValue.Value "v")]
              (Schema.mk SchemaType.List []) false).values ∧
            strStartsWith k' "_" = false ∧ v'.is_empty = false ∧
            pr ∈ flatten_field k' v' :=
  absent_field_no_insert_pair
    (FormData.mk [("gone", FormValue.Value ""), ("kept", FormValue.Value "v")]
      (Schema.mk SchemaType.List []) false)
    [UpdateSettings.Insert none [("kept", "v")] false] (by decide)
    "gone" (FormValue.Value "") (by decide) (by decide)

/-- Claim C8: for a single-select field with a static source list, `format`
returns the matching entry's display label when one matches the stored value,
the raw stored value verbatim when none matches, and the looked-up value
defaults to the empty string when the key is absent; `format` is a total
function, so no error is possible. -/
theorem select_static_format (s : Settings) (field : SchemaField)
    (items : List (String × String))
    (h : field.typ_ = FieldType.Select (Source.Static items) false) :
    (∀ pr, items.find? (fun kv => kv.1 == (Settings.get s field.id).getD "") = some pr →
      pr.1 = (Settings.get s field.id).getD "" ∧ Settings.format s field = pr.2) ∧
    (items.find? (fun kv => kv.1 == (Settings.get s field.id).getD "") = none →
      Settings.format s field = (Settings.get s field.id).getD "") ∧
    (Settings.get s field.id = none → (Settings.get s field.id).getD "" = "") := by
  have hfmt : Settings.format s field =
      ((items.find? (fun kv => kv.1 == (Settings.get s field.id).getD "")).map
        (fun kv => kv.2)).getD ((Settings.get s field.id).getD "") := by
    unfold Settings.format
    rw [h]
  refine ⟨?_, ?_, ?_⟩
  · intro pr hfind
    have hp := List.find?_some hfind
    simp only [beq_iff_eq] at hp
    rw [hfmt, hfind]
    exact ⟨hp, rfl⟩
  · intro hfind
    rw [hfmt, hfind]
    rfl
  · intro habs
    rw [habs]
    rfl

/-- Concrete instance of `select_static_format`, the spec's end-to-end
scenario: static source `[("1","One"),("2","Two")]`, stored `"2"` gives
`"Two"`; with nothing stored the looked-up value defaults to `""`. -/
theorem select_static_format_witness :
    ((∀ pr, [("1", "One"), ("2", "Two")].find? (fun kv => kv.1 ==
        (Settings.get [("x", "2")] (SchemaField.mk "x"
          (FieldType.Select (Source.Static [("1", "One"), ("2", "Two")]) false)
          false).id).getD "") = some pr →
      pr.1 = (Settings.get [("x", "2")] (SchemaField.mk "x"
          (FieldType.Select (Source.Static [("1", "One"), ("2", "Two")]) false)
          false).id).getD "" ∧
        Settings.format [("x", "2")] (SchemaField.mk "x"
          (FieldType.Select (Source.Static [("1", "One"), ("2", "Two")]) false)
          false) = pr.2) ∧
    ([("1", "One"), ("2", "Two")].find? (fun kv => kv.1 ==
        (Settings.get [("x", "2")] (SchemaField.mk "x"
          (FieldType.Select (Source.Static [("1", "One"), ("2", "Two")]) false)
          false).id).getD "") = none →
      Settings.format [("x", "2")] (SchemaField.mk "x"
          (FieldType.Select (Source.Static [("1", "One"), ("2", "Two")]) false)
          false) = (Settings.get [("x", "2")] (SchemaField.mk "x"
          (FieldType.Select (Source.Static [("1", "One"), ("2", "Two")]) false)
          false).id).getD "") ∧
    (Settings.get [("x", "2")] (SchemaField.mk "x"
        (FieldType.Select (Source.Static [("1", "One"), ("2", "Two")]) false)
        false).id = none →
      (Settings.get [("x", "2")] (SchemaField.mk "x"
        (FieldType.Select (Source.Static [("1", "One"), ("2", "Two")]) false)
        false).id).getD "" = "")) :=
  select_static_format [("x", "2")]
    (SchemaField.mk "x" (FieldType.Select (Source.Static [("1", "One"), ("2", "Two")]) false)
      false)
    [("1", "One"), ("2", "Two")] rfl

/-- Claim C5: in a List-shape update, every multivalue declared field yields a
`Clear` of `field_id ++ "."` and is marked for deletion, every non-multivalue
declared field with an absent value is marked for deletion, the marked ids are
batched into at most one `Delete` (present exactly when some id was marked),
and all Clear/Delete operations precede the Insert. -/
theorem list_update_clear_delete (d : FormData) (ops : List UpdateSettings)
    (hS : d.schema.typ = SchemaType.List) (hU : d.is_update = true)
    (hB : d.build_update = some ops) :
    ∀ dk, dk = (d.schema.fields.filter
        (fun f => f.is_multivalue || d.value_is_empty f.id)).map (fun f => f.id) →
      ((∀ fl ∈ d.schema.fields, fl.is_multivalue = true →
          UpdateSettings.Clear (fl.id ++ ".") ∈ ops ∧ fl.id ∈ dk) ∧
        (∀ fl ∈ d.schema.fields, fl.is_multivalue = false →
          d.value_is_empty fl.id = true → fl.id ∈ dk) ∧
        (dk ≠ [] → UpdateSettings.Delete dk ∈ ops) ∧
        (dk = [] → ∀ ks, UpdateSettings.Delete ks ∉ ops) ∧
        ops.countP (fun op => op.isDelete) ≤ 1 ∧
        ∃ front back, ops = front ++ back ∧
          (∀ op ∈ front, op.isInsert = false) ∧
          (∀ op ∈ back, op.isClear = false ∧ op.isDelete = false)) := by
  intro dk hdk
  rw [build_update_list_eq d hS, hU] at hB
  simp only [eq_self_iff_true, if_true] at hB
  rw [← hdk] at hB
  injection hB with hB
  subst hB
  set clears := (d.schema.fields.filter (fun f => f.is_multivalue)).map
    (fun f => UpdateSettings.Clear (f.id ++ ".")) with hclears
  set delblock := if !dk.isEmpty then [UpdateSettings.Delete dk] else [] with hdel
  set insblock := if !(collect_key_values d.values).isEmpty then
    [UpdateSettings.Insert none (collect_key_values d.values) false] else [] with hins
  refine ⟨?_, ?_, ?_, ?_, ?_, ?_⟩
  · intro fl hfl hmv
    constructor
    · refine List.mem_append.mpr (Or.inl (List.mem_append.mpr (Or.inl ?_)))
      exact List.mem_map.mpr ⟨fl, List.mem_filter.mpr ⟨hfl, hmv⟩, rfl⟩
    · rw [hdk]
      exact List.mem_map.mpr ⟨fl, List.mem_filter.mpr ⟨hfl, by simp [hmv]⟩, rfl⟩
  · intro fl hfl hmv hemp
    rw [hdk]
    exact List.mem_map.mpr ⟨fl, List.mem_filter.mpr ⟨hfl, by simp [hmv, hemp]⟩, rfl⟩
  · intro hne
    have : dk.isEmpty = false := by
      cases hdke : dk with
      | nil => exact absurd hdke hne
      | cons a l => rfl
    rw [hdel, this]
    exact List.mem_append.mpr (Or.inl (List.mem_append.mpr (Or.inr (by simp))))
  · intro hnil ks hmem
    rcases List.mem_append.mp hmem with hm | hm
    · rcases List.mem_append.mp hm with hm2 | hm2
      · obtain ⟨fl, _, hfe⟩ := List.mem_map.mp hm2
        exact absurd hfe (by simp)
      · rw [hdel, hnil] at hm2
        simp at hm2
    · rw [hins] at hm
      cases hkve : (collect_key_values d.values).isEmpty <;> rw [hkve] at hm <;> simp at hm
  · rw [List.countP_append, List.countP_append]
    have h1 : clears.countP (fun op => op.isDelete) = 0 := by
      rw [List.countP_eq_zero]
      intro op hop
      obtain ⟨fl, _, hfe⟩ := List.mem_map.mp hop
      subst hfe
      simp [UpdateSettings.isDelete]
    have h2 : delblock.countP (fun op => op.isDelete) ≤ 1 := by
      rw [hdel]
      cases dk.isEmpty <;> simp [List.countP_cons, List.countP_nil, UpdateSettings.isDelete]
    have h3 : insblock.countP (fun op => op.isDelete) = 0 := by
      rw [hins]
      cases (collect_key_values d.values).isEmpty <;>
        simp [List.countP_cons, List.countP_nil, UpdateSettings.isDelete]
    omega
  · refine ⟨clears ++ delblock, insblock, rfl, ?_, ?_⟩
    · intro op hop
      rcases List.mem_append.mp hop with hm | hm
      · obtain ⟨fl, _, hfe⟩ := List.mem_map.mp hm
        subst hfe
        simp [UpdateSettings.isInsert]
      · rw [hdel] at hm
        cases dk.isEmpty <;> simp at hm <;> simp [hm, UpdateSettings.isInsert]
    · intro op hop
      rw [hins] at hop
      cases (collect_key_values d.values).isEmpty <;> simp at hop <;>
        simp [hop, UpdateSettings.isClear, UpdateSettings.isDelete]

/-- Concrete instance of `list_update_clear_delete`: a multivalue field and an
absent scalar field. -/
theorem list_update_clear_delete_witness :
    (FormData.mk [("sc", FormValue.Value ""), ("arr", FormValue.Array ["a", "b"])]
        (Schema.mk SchemaType.List
          [SchemaField.mk "arr" FieldType.Array true,
            SchemaField.mk "sc" FieldType.Input false]) true).build_update
      = some [UpdateSettings.Clear "arr.", UpdateSettings.Delete ["arr", "sc"],
          UpdateSettings.Insert none [("arr.0", "a"), ("arr.1", "b")] false] ∧
    ∀ dk, dk = ((FormData.mk
        [("sc", FormValue.Value ""), ("arr", FormValue.Array ["a", "b"])]
        (Schema.mk SchemaType.List
          [SchemaField.mk "arr" FieldType.Array true,
            SchemaField.mk "sc" FieldType.Input false]) true).schema.fields.filter
        (fun f => f.is_multivalue || (FormData.mk
          [("sc", FormValue.Value ""), ("arr", FormValue.Array ["a", "b"])]
          (Schema.mk SchemaType.List
            [SchemaField.mk "arr" FieldType.Array true,
              SchemaField.mk "sc" FieldType.Input false]) true).value_is_empty f.id)).map
        (fun f => f.id) →
      ((∀ fl ∈ (Schema.mk SchemaType.List
            [SchemaField.mk "arr" FieldType.Array true,
              SchemaField.mk "sc" FieldType.Input false]).fields,
          fl.is_multivalue = true →
          UpdateSettings.Clear (fl.id ++ ".") ∈
            [UpdateSettings.Clear "arr.", UpdateSettings.Delete ["arr", "sc"],
              UpdateSettings.Insert none [("arr.0", "a"), ("arr.1", "b")] false] ∧
            fl.id ∈ dk) ∧
        (∀ fl ∈ (Schema.mk SchemaType.List
            [SchemaField.mk "arr" FieldType.Array true,
              SchemaField.mk "sc" FieldType.Input false]).fields,
          fl.is_multivalue = false →
          (FormData.mk [("sc", FormValue.Value ""), ("arr", FormValue.Array ["a", "b"])]
            (Schema.mk SchemaType.List
              [SchemaField.mk "arr" FieldType.Array true,
                SchemaField.mk "sc" FieldType.Input false]) true).value_is_empty fl.id = true →
          fl.id ∈ dk) ∧
        (dk ≠ [] → UpdateSettings.Delete dk ∈
          [UpdateSettings.Clear "arr.", UpdateSettings.Delete ["arr", "sc"],
            UpdateSettings.Insert none [("arr.0", "a"), ("arr.1", "b")] false]) ∧
        (dk = [] → ∀ ks, UpdateSettings.Delete ks ∉
          [UpdateSettings.Clear "arr.", UpdateSettings.Delete ["arr", "sc"],
            UpdateSettings.Insert none [("arr.0", "a"), ("arr.1", "b")] false]) ∧
        [UpdateSettings.Clear "arr.", UpdateSettings.Delete ["arr", "sc"],
          UpdateSettings.Insert none [("arr.0", "a"), ("arr.1", "b")] false].countP
          (fun op => op.isDelete) ≤ 1 ∧
        ∃ front back,
          [UpdateSettings.Clear "arr.", UpdateSettings.Delete ["arr", "sc"],
            UpdateSettings.Insert none [("arr.0", "a"), ("arr.1", "b")] false]
            = front ++ back ∧
          (∀ op ∈ front, op.isInsert = false) ∧
          (∀ op ∈ back, op.isClear = false ∧ op.isDelete = false)) :=
  ⟨by decide,
    list_update_clear_delete
      (FormData.mk [("sc", FormValue.Value ""), ("arr", FormValue.Array ["a", "b"])]
        (Schema.mk SchemaType.List
          [SchemaField.mk "arr" FieldType.Array true,
            SchemaField.mk "sc" FieldType.Input false]) true)
      [UpdateSettings.Clear "arr.", UpdateSettings.Delete ["arr", "sc"],
        UpdateSettings.Insert none [("arr.0", "a"), ("arr.1", "b")] false]
      rfl rfl (by decide)⟩

/-- `natToDecAux` with enough fuel computes the base-10 digits, most
significant first. -/
theorem natToDecAux_eq_digits : ∀ fuel n, n ≤ fuel →
    natToDecAux fuel n = (Nat.digits 10 n).reverse.map decDigitChar := by
  intro fuel
  induction fuel with
  | zero =>
    intro n hn
    interval_cases n
    simp [natToDecAux]
  | succ fuel ih =>
    intro n hn
    cases n with
    | zero => simp [natToDecAux]
    | succ m =>
      rw [show natToDecAux (fuel + 1) (m + 1)
          = natToDecAux fuel ((m + 1) / 10) ++ [Char.ofNat (48 + (m + 1) % 10)] from rfl]
      rw [ih ((m + 1) / 10)
        (by have := Nat.div_le_self (m + 1) 10
            have h2 := Nat.div_lt_self (Nat.succ_pos m) (by norm_num : (1:Nat) < 10)
            omega)]
      rw [Nat.digits_def' (by norm_num : (1:Nat) < 10) (Nat.succ_pos m)]
      simp [decDigitChar]

/-- The characters of `natToDec`. -/
theorem natToDec_data (n : Nat) :
    (natToDec n).data =
      if n = 0 then ['0'] else (Nat.digits 10 n).reverse.map decDigitChar := by
  by_cases h : n = 0
  · subst h
    rfl
  · rw [natToDec, if_neg h, if_neg h]
    rw [show (String.mk (natToDecAux n n)).data = natToDecAux n n from rfl]
    exact natToDecAux_eq_digits n n le_rfl

/-- For nonzero `n` the length of `natToDec n` is its digit count. -/
theorem natToDec_length (n : Nat) (h : n ≠ 0) :
    (natToDec n).length = (Nat.digits 10 n).length := by
  rw [show (natToDec n).length = (natToDec n).data.length from rfl, natToDec_data, if_neg h]
  simp

/-- Codepoint of a decimal digit character. -/
theorem decDigitChar_toNat (d : Nat) (h : d < 10) : (decDigitChar d).toNat = 48 + d := by
  interval_cases d <;> decide

/-- Characters of a zero-padded decimal numeral: the digit characters of the
padded digit list. -/
theorem zeroPad_natToDec_data (w n : Nat) (hw : 1 ≤ w)
    (hlen : (Nat.digits 10 n).length ≤ w) :
    (zeroPad w (natToDec n)).data =
      (List.replicate (w - (Nat.digits 10 n).length) 0 ++
        (Nat.digits 10 n).reverse).map decDigitChar := by
  rw [zeroPad, String.data_append,
    show (String.mk (List.replicate (w - (natToDec n).length) '0')).data
      = List.replicate (w - (natToDec n).length) '0' from rfl]
  by_cases h : n = 0
  · subst h
    rw [natToDec_data]
    rw [show (natToDec 0).length = 1 from rfl]
    simp only [eq_self_iff_true, if_true, Nat.digits_zero, List.length_nil, Nat.sub_zero,
      List.reverse_nil, List.append_nil, List.map_replicate]
    rw [show decDigitChar 0 = '0' by decide]
    rw [show (['0'] : List Char) = List.replicate 1 '0' from rfl,
      ← List.replicate_add, Nat.sub_add_cancel hw]
  · rw [natToDec_length n h, natToDec_data, if_neg h]
    rw [List.map_append, List.map_replicate]
    rw [show decDigitChar 0 = '0' by decide]

/-- Zero digits contribute nothing to `ofDigits`. -/
theorem ofDigits_replicate_zero (k : Nat) :
    Nat.ofDigits 10 (List.replicate k 0) = 0 := by
  induction k with
  | zero => simp [Nat.ofDigits]
  | succ k ih => simp [List.replicate_succ, Nat.ofDigits, ih]

/-- Trailing zero digits do not change the value. -/
theorem ofDigits_digits_append_zeros (n k : Nat) :
    Nat.ofDigits 10 (Nat.digits 10 n ++ List.replicate k 0) = n := by
  rw [Nat.ofDigits_append, Nat.ofDigits_digits, ofDigits_replicate_zero, Nat.mul_zero,
    Nat.add_zero]

/-- Value of a big-endian digit list by its leading digit. -/
theorem ofDigits_reverse_cons (x : Nat) (xs : List Nat) :
    Nat.ofDigits 10 ((x :: xs).reverse)
      = Nat.ofDigits 10 xs.reverse + 10 ^ xs.length * x := by
  rw [List.reverse_cons, Nat.ofDigits_append, List.length_reverse]
  simp [Nat.ofDigits]

/-- On equal-length big-endian digit lists, numeric order implies
lexicographic order of the digit characters. -/
theorem lex_of_value_lt : ∀ xs ys : List Nat, xs.length = ys.length →
    (∀ d ∈ xs, d < 10) → (∀ d ∈ ys, d < 10) →
    Nat.ofDigits 10 xs.reverse < Nat.ofDigits 10 ys.reverse →
    lexLt (xs.map decDigitChar) (ys.map decDigitChar) = true := by
  intro xs
  induction xs with
  | nil =>
    intro ys hlen _ _ hval
    cases ys with
    | nil => simp at hval
    | cons y ys2 => simp at hlen
  | cons x xs2 ih =>
    intro ys hlen hxd hyd hval
    cases ys with
    | nil => simp at hlen
    | cons y ys2 =>
      have hlen2 : xs2.length = ys2.length := by simpa using hlen
      have hx10 : x < 10 := hxd x (List.mem_cons_self x xs2)
      have hy10 : y < 10 := hyd y (List.mem_cons_self y ys2)
      rw [ofDigits_reverse_cons, ofDigits_reverse_cons] at hval
      rcases Nat.lt_trichotomy x y with hxy | hxy | hxy
      · rw [List.map_cons, List.map_cons]
        rw [show lexLt (decDigitChar x :: xs2.map decDigitChar)
            (decDigitChar y :: ys2.map decDigitChar)
          = if (decDigitChar x).toNat < (decDigitChar y).toNat then true
            else if (decDigitChar y).toNat < (decDigitChar x).toNat then false
            else lexLt (xs2.map decDigitChar) (ys2.map decDigitChar) from rfl]
        rw [decDigitChar_toNat x hx10, decDigitChar_toNat y hy10]
        rw [if_pos (by omega)]
      · subst hxy
        rw [List.map_cons, List.map_cons]
        rw [show lexLt (decDigitChar x :: xs2.map decDigitChar)
            (decDigitChar x :: ys2.map decDigitChar)
          = if (decDigitChar x).toNat < (decDigitChar x).toNat then true
            else if (decDigitChar x).toNat < (decDigitChar x).toNat then false
            else lexLt (xs2.map decDigitChar) (ys2.map decDigitChar) from rfl]
        rw [if_neg (by omega), if_neg (by omega)]
        refine ih ys2 hlen2 (fun d hd => hxd d (List.mem_cons_of_mem x hd))
          (fun d hd => hyd d (List.mem_cons_of_mem x hd)) ?_
        rw [hlen2] at hval
        omega
      · exfalso
        have hB : Nat.ofDigits 10 ys2.reverse < 10 ^ ys2.length := by
          have := Nat.ofDigits_lt_base_pow_length (b := 10) (by norm_num)
            (fun d hd => hyd d (List.mem_cons_of_mem y (List.mem_reverse.mp hd)))
          rwa [List.length_reverse] at this
        have h1 : 10 ^ ys2.length * (y + 1) ≤ 10 ^ ys2.length * x :=
          Nat.mul_le_mul_left _ hxy
        rw [hlen2] at hval
        nlinarith [Nat.zero_le (Nat.ofDigits 10 xs2.reverse)]

/-- `lexLt` ignores a common prefix. -/
theorem lexLt_append_left : ∀ p a b : List Char,
    lexLt (p ++ a) (p ++ b) = lexLt a b := by
  intro p
  induction p with
  | nil => intro a b; rfl
  | cons c p ih =>
    intro a b
    rw [List.cons_append, List.cons_append,
      show lexLt (c :: (p ++ a)) (c :: (p ++ b))
        = if c.toNat < c.toNat then true
          else if c.toNat < c.toNat then false
          else lexLt (p ++ a) (p ++ b) from rfl,
      if_neg (by omega), if_neg (by omega)]
    exact ih a b

/-- Strict lexicographic order implies the reflexive one. -/
theorem lexLt_le : ∀ a b : List Char, lexLt a b = true → lexLe a b = true := by
  intro a
  induction a with
  | nil => intro b _; cases b <;> rfl
  | cons c a ih =>
    intro b h
    cases b with
    | nil => simp [lexLt] at h
    | cons c2 b =>
      rw [show lexLt (c :: a) (c2 :: b)
          = if c.toNat < c2.toNat then true
            else if c2.toNat < c.toNat then false
            else lexLt a b from rfl] at h
      rw [show lexLe (c :: a) (c2 :: b)
          = if c.toNat < c2.toNat then true
            else if c2.toNat < c.toNat then false
            else lexLe a b from rfl]
      by_cases h1 : c.toNat < c2.toNat
      · rw [if_pos h1]
      · rw [if_neg h1] at h ⊢
        by_cases h2 : c2.toNat < c.toNat
        · rw [if_pos h2] at h
          exact absurd h (by simp)
        · rw [if_neg h2] at h ⊢
          exact ih b h

/-- Digit count is monotone. -/
theorem digits_len_mono (i m : Nat) (h : i ≤ m) :
    (Nat.digits 10 i).length ≤ (Nat.digits 10 m).length := by
  by_cases hi : i = 0
  · subst hi; simp
  · have hm : m ≠ 0 := by omega
    rw [Nat.digits_len 10 i (by norm_num) hi, Nat.digits_len 10 m (by norm_num) hm]
    have := Nat.log_mono_right (b := 10) h
    omega

/-- Two indexed array keys with the same field prefix and the same padding
width compare lexicographically like their indices, provided both numerals fit
in the width. -/
theorem padded_key_lt (f : String) (pad i j : Nat) (hij : i < j)
    (hilen : (Nat.digits 10 i).length ≤ pad)
    (hjlen : (Nat.digits 10 j).length ≤ pad) (hpad : 1 ≤ pad) :
    lexLt (f ++ "." ++ zeroPad pad (natToDec i)).data
      (f ++ "." ++ zeroPad pad (natToDec j)).data = true := by
  simp only [String.data_append]
  rw [lexLt_append_left]
  rw [zeroPad_natToDec_data pad i hpad hilen, zeroPad_natToDec_data pad j hpad hjlen]
  apply lex_of_value_lt
  · simp only [List.length_append, List.length_replicate, List.length_reverse]
    omega
  · intro d hd
    rcases List.mem_append.mp hd with hm | hm
    · have := List.eq_of_mem_replicate hm
      omega
    · exact Nat.digits_lt_base (by norm_num) (List.mem_reverse.mp hm)
  · intro d hd
    rcases List.mem_append.mp hd with hm | hm
    · have := List.eq_of_mem_replicate hm
      omega
    · exact Nat.digits_lt_base (by norm_num) (List.mem_reverse.mp hm)
  · rw [List.reverse_append, List.reverse_reverse, List.reverse_replicate,
      List.reverse_append, List.reverse_reverse, List.reverse_replicate,
      ofDigits_digits_append_zeros, ofDigits_digits_append_zeros]
    exact hij

/-- A list already sorted strictly by key is left unchanged by `sortByKey`. -/
theorem sortByKey_of_pairwise : ∀ l : List (String × String),
    List.Pairwise (fun a b => lexLt a.1.data b.1.data = true) l → sortByKey l = l := by
  intro l
  induction l with
  | nil => intro _; rfl
  | cons x xs ih =>
    intro hp
    rw [List.pairwise_cons] at hp
    rw [show sortByKey (x :: xs) = insertByKey x (sortByKey xs) from rfl, ih hp.2]
    cases xs with
    | nil => rfl
    | cons y ys =>
      rw [show insertByKey x (y :: ys)
          = if lexLe x.1.data y.1.data then x :: y :: ys else y :: insertByKey x ys from rfl]
      rw [if_pos (lexLt_le _ _ (hp.1 y (List.mem_cons_self y ys)))]

/-- Enumeration indices are strictly increasing. -/
theorem pairwise_enumFrom_lt {α : Type} : ∀ (l : List α) (n : Nat),
    List.Pairwise (fun a b : Nat × α => a.1 < b.1) (l.enumFrom n) := by
  intro l
  induction l with
  | nil => intro n; exact List.Pairwise.nil
  | cons x xs ih =>
    intro n
    rw [show (x :: xs).enumFrom n = (n, x) :: xs.enumFrom (n + 1) from rfl]
    exact List.Pairwise.cons
      (fun b hb => Nat.lt_of_lt_of_le (Nat.lt_succ_self n) (List.le_fst_of_mem_enumFrom hb))
      (ih (n + 1))

/-- Enumeration indices are below the list length. -/
theorem fst_lt_length_of_mem_enum {α : Type} {l : List α} {p : Nat × α}
    (h : p ∈ l.enum) : p.1 < l.length := by
  have := List.fst_lt_add_of_mem_enumFrom (n := 0) h
  omega

/-- Flattening of an array of more than one element. -/
theorem flatten_field_array_big (k : String) (es : List String) (h : 1 < es.length) :
    flatten_field k (FormValue.Array es) =
      es.enum.map (fun iv =>
        (k ++ "." ++ zeroPad (natToDec (es.length - 1)).length (natToDec iv.1), iv.2)) := by
  have hE : es.isEmpty = false := by
    cases es with
    | nil => simp at h
    | cons a l => rfl
  simp [flatten_field, hE, h]

/-- Claim C1: round-trip — for any field id and any array of `N` string
elements with `2 ≤ N ≤ 9999`, all non-empty, building the plan with
`build_update` (List shape, no prefix) and inserting the emitted key-value
pairs into an empty store, then reading them back with `array_values` on the
field id, yields exactly the `N` elements in their original order. -/
theorem array_round_trip (f : String) (es : List String)
    (h2 : 2 ≤ es.length) (h9999 : es.length ≤ 9999) (hne : ∀ e ∈ es, e ≠ "")
    (hf : strStartsWith f "_" = false) :
    ∃ kvs : List (String × String),
      (FormData.mk [(f, FormValue.Array es)]
          (Schema.mk SchemaType.List []) false).build_update
        = some [UpdateSettings.Insert none kvs false] ∧
      (array_values kvs f).map Prod.snd = es := by
  have hm0 : es.length - 1 ≠ 0 := by omega
  set pad := (natToDec (es.length - 1)).length with hpaddef
  set kvs := es.enum.map
    (fun iv => (f ++ "." ++ zeroPad pad (natToDec iv.1), iv.2)) with hkvsdef
  have hflat : flatten_field f (FormValue.Array es) = kvs := by
    rw [flatten_field_array_big f es (by omega)]
  have hkvne : kvs.isEmpty = false := by
    rw [hkvsdef]
    cases es with
    | nil => simp at h2
    | cons a l => rfl
  refine ⟨kvs, ?_, ?_⟩
  · rw [build_update_list_eq _ rfl]
    rw [show collect_key_values [(f, FormValue.Array es)]
        = flatten_field f (FormValue.Array es) by
      rw [collect_key_values_cons, hf]
      simp [collect_key_values]]
    rw [hflat, hkvne]
    rfl
  · have hfilter : kvs.filter
        (fun kv => strStartsWith kv.1 (f ++ ".") || kv.1 == f) = kvs := by
      refine List.filter_eq_self.mpr ?_
      intro kv hkv
      rw [hkvsdef] at hkv
      obtain ⟨iv, _, hiv⟩ := List.mem_map.mp hkv
      rw [← hiv]
      have hsw : strStartsWith (f ++ "." ++ zeroPad pad (natToDec iv.1)) (f ++ ".")
          = true := by
        rw [strStartsWith, String.data_append, List.isPrefixOf_iff_prefix]
        exact List.prefix_append _ _
      rw [hsw]
      rfl
    have hsorted : List.Pairwise
        (fun a b : String × String => lexLt a.1.data b.1.data = true) kvs := by
      rw [hkvsdef, List.pairwise_map]
      refine List.Pairwise.imp_of_mem ?_ (pairwise_enumFrom_lt es 0)
      intro a b ha hb hab
      have hai : a.1 < es.length := fst_lt_length_of_mem_enum ha
      have hbi : b.1 < es.length := fst_lt_length_of_mem_enum hb
      refine padded_key_lt f pad a.1 b.1 hab ?_ ?_ ?_
      · rw [hpaddef, natToDec_length _ hm0]
        exact digits_len_mono _ _ (by omega)
      · rw [hpaddef, natToDec_length _ hm0]
        exact digits_len_mono _ _ (by omega)
      · rw [hpaddef, natToDec_length _ hm0, Nat.digits_len 10 _ (by norm_num) hm0]
        omega
    rw [array_values, hfilter, sortByKey_of_pairwise kvs hsorted, hkvsdef, List.map_map]
    rw [show (Prod.snd ∘ fun iv : Nat × String =>
        (f ++ "." ++ zeroPad pad (natToDec iv.1), iv.2)) = Prod.snd from rfl]
    exact List.enum_map_snd es

/-- Concrete instance of `array_round_trip`. -/
theorem array_round_trip_witness :
    ∃ kvs : List (String × String),
      (FormData.mk [("f", FormValue.Array ["b", "a", "c"])]
          (Schema.mk SchemaType.List []) false).build_update
        = some [UpdateSettings.Insert none kvs false] ∧
      (array_values kvs "f").map Prod.snd = ["b", "a", "c"] :=
  array_round_trip "f" ["b", "a", "c"] (by decide) (by decide) (by decide) (by decide)
